import Mathlib

/-!
Verification development for the gopherd/log structured logging library.

The Go sources are shallowly embedded: byte buffers become `List Char`
(the source writes UTF-8 text into `[]byte` buffers; we model the text),
machine integers become `Int`/`Nat`, pointer-nullability becomes `Option`,
and the provider's sink side effects become an explicit event trace.
Every definition mirrors a named function of the repository; definitions
for repository code that is not part of the source snapshot (the intrusive
queue, the pooled entry type and the zero-padded digit helpers, of which
only callers are present) are modelled from the specification and marked
as such in their doc comments.
-/

namespace GopherdLog

/-- A byte buffer of the Go code (`[]byte` holding UTF-8 text), modelled
as the list of the characters written into it. -/
abbrev Buf := List Char

/-- The opening-brace character (kept out of string literals). -/
def lbrace : Char := Char.ofNat 123

/-- The closing-brace character (kept out of string literals). -/
def rbrace : Char := Char.ofNat 125

/-- The double-quote character. -/
def dquote : Char := Char.ofNat 34

/-- The backslash character. -/
def bslash : Char := Char.ofNat 92

/-! ### Levels (src/log.go) -/

/-- `Level` is an `int32` in the source; severities are
fatal=1, error=2, warn=3, info=4, debug=5, trace=6. -/
abbrev Level := Int

def LevelFatal : Level := 1

def LevelError : Level := 2

def LevelWarn : Level := 3

def LevelInfo : Level := 4

def LevelDebug : Level := 5

def LevelTrace : Level := 6

/-- `levelBytes = "FEWIDT"` (src/log.go). -/
def levelBytes : List Char := ['F', 'E', 'W', 'I', 'D', 'T']

/-- `getLevelByte` (src/log.go): index `level - LevelFatal` into
`levelBytes`, out-of-range yields `'X'`. -/
def getLevelByte (level : Level) : Char :=
  let i : Int := level - LevelFatal
  if i < 0 ∨ i ≥ (levelBytes.length : Int) then 'X'
  else levelBytes.getD i.toNat 'X'

/-! ### Identifier grammar and the key/field encoder
(src/unnamed/part_004, the `encoder`, and jsonx variant) -/

/-- `isIdentRune` (src/unnamed/part_004): a rune usable in an unquoted
key.  Go's `unicode.IsLetter`/`unicode.IsDigit` are modelled by Lean's
`Char.isAlpha`/`Char.isDigit` (they agree on the ASCII range; the full
Unicode tables are outside the embedding). -/
def isIdentRune (ch : Char) : Bool :=
  ch = '_' || ch = '-' || ch = '.' || ch = '#' || ch = '$' || ch = '/' ||
  ch.isAlpha || ch.isDigit

/-- `isIdent` (src/unnamed/part_004): non-empty and every rune passes
`isIdentRune`. -/
def isIdent (s : String) : Bool :=
  if s.data.length = 0 then false
  else s.data.all isIdentRune

/-- One character of Go's `strconv.Quote` escaping: quote and backslash
are backslash-escaped, the named control escapes are produced, other
control bytes get a `\xhh` escape; printable characters pass through.
(Models `strconv.AppendQuote`, src uses it via `encodeString`.) -/
def quoteChar (c : Char) : List Char :=
  if c = dquote then [bslash, dquote]
  else if c = bslash then [bslash, bslash]
  else if c = Char.ofNat 7 then [bslash, 'a']
  else if c = Char.ofNat 8 then [bslash, 'b']
  else if c = Char.ofNat 12 then [bslash, 'f']
  else if c = Char.ofNat 10 then [bslash, 'n']
  else if c = Char.ofNat 13 then [bslash, 'r']
  else if c = Char.ofNat 9 then [bslash, 't']
  else if c = Char.ofNat 11 then [bslash, 'v']
  else if c.toNat < 32 ∨ c.toNat = 127 then
    [bslash, 'x', "0123456789abcdef".data.getD (c.toNat / 16) '0',
      "0123456789abcdef".data.getD (c.toNat % 16) '0']
  else [c]

/-- Go's `strconv.Quote`: the escaped text wrapped in double quotes. -/
def goQuote (s : String) : List Char :=
  [dquote] ++ (s.data.map quoteChar).flatten ++ [dquote]

/-- `encoder.encodeString` (src/unnamed/part_004): append the quoted
string. -/
def encodeString (buf : Buf) (s : String) : Buf :=
  buf ++ goQuote s

/-- `encoder.encodeKey` (src/unnamed/part_004): an opening brace when the
buffer is empty, a comma otherwise; then the key, unquoted when
`isIdent` holds, quoted otherwise; then a colon. -/
def encodeKey (buf : Buf) (key : String) : Buf :=
  let buf := if buf = [] then buf ++ [lbrace] else buf ++ [',']
  let buf := if isIdent key then buf ++ key.data else encodeString buf key
  buf ++ [':']

/-- `encoder.finish` (src/unnamed/part_004): append `"} "` when any
bytes were written, nothing otherwise. -/
def finishEnc (buf : Buf) : Buf :=
  if buf.length > 0 then buf ++ [rbrace, ' '] else buf

/-- `encoder.encodeNil` (src/unnamed/part_004): the literal `nil`. -/
def encodeNil (buf : Buf) : Buf := buf ++ "nil".data

/-- `encoder.encodeInt` (src/unnamed/part_004): `strconv.AppendInt`
base 10, modelled by Lean's decimal rendering of the integer. -/
def encodeInt (buf : Buf) (i : Int) : Buf := buf ++ (toString i).data

/-- `encoder.encodeUint` (src/unnamed/part_004): `strconv.AppendUint`
base 10. -/
def encodeUint (buf : Buf) (i : Nat) : Buf := buf ++ (toString i).data

/-- `encoder.encodeBool` (src/unnamed/part_004):
`strconv.AppendBool`. -/
def encodeBool (buf : Buf) (v : Bool) : Buf :=
  buf ++ (if v then "true".data else "false".data)

/-- `encoder.encodeByte` (src/unnamed/part_004): the byte wrapped in
single quotes. -/
def encodeByte (buf : Buf) (c : Char) : Buf :=
  buf ++ [Char.ofNat 39, c, Char.ofNat 39]

/-- `hex = "0123456789abcdef"` (src/unnamed/part_004). -/
def hexTable : List Char := "0123456789abcdef".data

/-- `encoder.encodeBytes` (src/slice.go): `0x` followed by the
two lowercase hex digits of every byte, no separators, no brackets. -/
def encodeBytes (buf : Buf) (s : List Nat) : Buf :=
  s.foldl
    (fun b c => b ++ [hexTable.getD (c / 16) '0', hexTable.getD (c % 16) '0'])
    (buf ++ "0x".data)

/-- The element loop shared by every `encodeXs` in src/slice.go:
`for i := range s { if i > 0 { writeByte(',') }; encode element }`,
with `first` tracking `i = 0`. -/
def encodeElemsLoop (encodeElem : Buf → α → Buf) :
    Buf → Bool → List α → Buf
  | buf, _, [] => buf
  | buf, first, v :: rest =>
      encodeElemsLoop encodeElem
        (encodeElem (if first then buf else buf ++ [',']) v) false rest

/-- The common shape of the sixteen non-byte slice encoders of
src/slice.go: `writeByte('[')`, the comma-separated element loop,
`writeByte(']')`. -/
def encodeSlice (encodeElem : Buf → α → Buf) (buf : Buf) (s : List α) :
    Buf :=
  encodeElemsLoop encodeElem (buf ++ ['[']) true s ++ [']']

/-- `encoder.encodeInt32s` (src/slice.go): bracketed comma-separated
`encodeInt` of each element. -/
def encodeInt32s (buf : Buf) (s : List Int) : Buf :=
  encodeSlice encodeInt buf s

/-- `encoder.encodeUint64s` (src/slice.go): bracketed comma-separated
`encodeUint` of each element. -/
def encodeUint64s (buf : Buf) (s : List Nat) : Buf :=
  encodeSlice encodeUint buf s

/-- `encoder.encodeBools` (src/slice.go): bracketed comma-separated
`encodeBool` of each element. -/
def encodeBools (buf : Buf) (s : List Bool) : Buf :=
  encodeSlice encodeBool buf s

/-- `encoder.encodeStrings` (src/slice.go): bracketed comma-separated
`encodeString` of each element. -/
def encodeStrings (buf : Buf) (s : List String) : Buf :=
  encodeSlice encodeString buf s

/-! ### Complex encoding (src/unnamed/part_004 `encodeComplex`)

The real/imaginary operands are `float64` in the source; the claim about
`encodeComplex` concerns only its zero/nonzero structure, so the operand
type and the digit formatter `encodeFloat` (`strconv.AppendFloat`) are
parameters of the embedding.  `F` stands for the float type with its
decidable equality-with-zero; `fmtF` stands for `encodeFloat`. -/

/-- `encoder.encodeComplex` (src/unnamed/part_004): real part when
nonzero; then, when the imaginary part is nonzero, a `+` separator (only
after a nonzero real part), the imaginary part and a trailing `i`;
the literal `0` when both parts are zero. -/
def encodeComplex {F : Type} [DecidableEq F] (z : F) (fmtF : F → Buf)
    (buf : Buf) (r i : F) : Buf :=
  let buf := if r ≠ z then buf ++ fmtF r else buf
  if i ≠ z then
    (if r ≠ z then buf ++ ['+'] else buf) ++ fmtF i ++ ['i']
  else if r = z then buf ++ ['0']
  else buf

/-! ### Duration formatting (src/unnamed/part_004)

The source builds the text right to left in a scratch byte buffer with
`w--; buf[w] = c` writes; the embedding represents the written tail
`buf[w:]` as a list accumulator, so every such write is a prepend.  The
two UTF-8 bytes of `'µ'` become the single character `'µ'`. -/

/-- Nanoseconds per second. -/
def nsPerSecond : Nat := 1000000000

/-- Nanoseconds per millisecond. -/
def nsPerMillisecond : Nat := 1000000

/-- Nanoseconds per microsecond. -/
def nsPerMicrosecond : Nat := 1000

/-- The digit loop of `fmtFrac` (src/unnamed/part_004): `prec` times,
take the low decimal digit of `v`; once a nonzero digit has been seen
(`pr`, the source's `print` flag), write every digit.  Returns the
accumulator, the remaining value and the flag. -/
def fmtFracLoop : Nat → Nat → Bool → Buf → Buf × Nat × Bool
  | 0, v, pr, acc => (acc, v, pr)
  | p + 1, v, pr, acc =>
      let digit := v % 10
      let pr := pr || decide (digit ≠ 0)
      let acc := if pr then Char.ofNat (digit + 48) :: acc else acc
      fmtFracLoop p (v / 10) pr acc

/-- `fmtFrac` (src/unnamed/part_004): format the fraction `v / 10^prec`
omitting trailing zeros, and the decimal point when any digit was
written; return the accumulator and `v / 10^prec`. -/
def fmtFrac (acc : Buf) (v prec : Nat) : Buf × Nat :=
  let r := fmtFracLoop prec v false acc
  (if r.2.2 then '.' :: r.1 else r.1, r.2.1)

/-- The digit loop of `fmtInt` (src/unnamed/part_004): while `v > 0`,
prepend the low decimal digit and divide by ten.  `fuel` bounds the
iteration count (the source loop runs once per decimal digit);
`fmtIntLoop` supplies `v` itself, which always suffices. -/
def fmtIntGo : Nat → Nat → Buf → Buf
  | 0, _, acc => acc
  | fuel + 1, v, acc =>
      if v = 0 then acc
      else fmtIntGo fuel (v / 10) (Char.ofNat (v % 10 + 48) :: acc)

/-- The nonzero digit loop of `fmtInt` (src/unnamed/part_004):
prepend the decimal digits of `v` (for `v > 0`). -/
def fmtIntLoop (v : Nat) (acc : Buf) : Buf :=
  fmtIntGo v v acc

/-- `fmtInt` (src/unnamed/part_004): prepend the decimal rendering of
`v` (a single `0` when `v = 0`). -/
def fmtInt (acc : Buf) (v : Nat) : Buf :=
  if v = 0 then '0' :: acc else fmtIntLoop v acc

/-- `formatDuration` (src/unnamed/part_004), Go's duration grammar:
`u` is the magnitude in nanoseconds.  Zero returns `0s` directly (the
source's early return inside the sub-second branch).  Sub-second values
use a single smaller unit (`ns`, `µs`, `ms`) with a trimmed fraction;
values of a second or more write seconds with a 9-digit trimmed
fraction, then minutes and hours when nonzero.  A negative duration is
prefixed with `-`. -/
def formatDuration (d : Int) : Buf :=
  let u := d.natAbs
  let neg := d < 0
  let acc :=
    if u < nsPerSecond then
      if u = 0 then ['0', 's']
      else
        let pa : Nat × Buf :=
          if u < nsPerMicrosecond then (0, ['n', 's'])
          else if u < nsPerMillisecond then (3, ['µ', 's'])
          else (6, ['m', 's'])
        let fr := fmtFrac pa.2 u pa.1
        fmtInt fr.1 fr.2
    else
      let fr := fmtFrac ['s'] u 9
      let acc := fmtInt fr.1 (fr.2 % 60)
      let u2 := fr.2 / 60
      if u2 > 0 then
        let acc := fmtInt ('m' :: acc) (u2 % 60)
        let u3 := u2 / 60
        if u3 > 0 then fmtInt ('h' :: acc) u3 else acc
      else acc
  if neg ∧ u ≠ 0 then '-' :: acc else acc

/-- `encoder`/`Context.Duration` value rendering (src/context.go
`Duration` reserves scratch space and appends `formatDuration`). -/
def encodeDuration (buf : Buf) (d : Int) : Buf :=
  buf ++ formatDuration d

/-! ### Level parsing (src/log.go) -/

/-- `errUnrecognizedLevel` (src/log.go). -/
def errUnrecognizedLevel : String := "log: unrecognized level"

/-- `Level.Literal` (src/log.go): `strconv.Itoa(int(level))`. -/
def levelLiteral (level : Level) : String := toString level

/-- `strings.ToUpper` as `ParseLevel` uses it, modelled on the ASCII
range (`Char.toUpper` per character). -/
def goToUpper (s : String) : String := String.mk (s.data.map Char.toUpper)

/-- `ParseLevel` (src/log.go): upper-case the input, match the level
name, the single-letter tag or the numeric literal of each level;
unmatched input yields `(LevelInfo, false)`. -/
def parseLevel (s : String) : Level × Bool :=
  if goToUpper s = "FATAL" ∨ goToUpper s = "F" ∨
      goToUpper s = levelLiteral LevelFatal then (LevelFatal, true)
  else if goToUpper s = "ERROR" ∨ goToUpper s = "E" ∨
      goToUpper s = levelLiteral LevelError then (LevelError, true)
  else if goToUpper s = "WARN" ∨ goToUpper s = "W" ∨
      goToUpper s = levelLiteral LevelWarn then (LevelWarn, true)
  else if goToUpper s = "INFO" ∨ goToUpper s = "I" ∨
      goToUpper s = levelLiteral LevelInfo then (LevelInfo, true)
  else if goToUpper s = "DEBUG" ∨ goToUpper s = "D" ∨
      goToUpper s = levelLiteral LevelDebug then (LevelDebug, true)
  else if goToUpper s = "TRACE" ∨ goToUpper s = "T" ∨
      goToUpper s = levelLiteral LevelTrace then (LevelTrace, true)
  else (LevelInfo, false)

/-- `Level.Set` (src/log.go): parse, store the parsed value into the
receiver (also on failure), report `errUnrecognizedLevel` when the
input was unrecognized.  The first component is the receiver's new
value, the second the returned error. -/
def levelSet (_current : Level) (s : String) : Level × Option String :=
  ((parseLevel s).1,
    if (parseLevel s).2 then none else some errUnrecognizedLevel)

/-- The claim's description of a recognized input: a level name
case-insensitively, its single-letter tag, or its numeric literal. -/
def recognizedLevelInput (s : String) : Bool :=
  decide (goToUpper s ∈
    ["FATAL", "F", "1", "ERROR", "E", "2", "WARN", "W", "3",
      "INFO", "I", "4", "DEBUG", "D", "5", "TRACE", "T", "6"])

/-! ### Flags (src/log.go) -/

def Ltimestamp : Nat := 1

def LUTC : Nat := 2

def Lmicroseconds : Nat := 4

def Lshortfile : Nat := 8

def Llongfile : Nat := 16

/-! ### Context: level gate, field chaining, terminal print
(src/context.go) -/

/-- `Context` (src/context.go): record level, logical sub-logger name
and the embedded encoder buffer.  The `logger` back-pointer is the
enclosing logger, represented where needed by its threshold. -/
structure Context where
  level : Level
  pfx : String
  encoder : Buf
deriving DecidableEq

/-- `getContext` (src/context.go): `nil` when the enclosing logger's
threshold is below the record's level (`logger.GetLevel() < level`),
otherwise a pooled context reset to the level, the sub-logger name and
an empty encoder buffer.  `loggerLevel` is the enclosing logger's
threshold (the source's `logger == nil` disjunct is the no-logger case,
outside the quantification over thresholds). -/
def getContext (loggerLevel : Level) (level : Level) (pfx : String) :
    Option Context :=
  if loggerLevel < level then none
  else some { level := level, pfx := pfx, encoder := [] }

/-- One chained field append of src/context.go: each method guards on
`ctx != nil`, encodes the key and then the typed value into the
encoder, and returns the same context. -/
inductive Field where
  | intF (key : String) (value : Int)
  | strF (key : String) (value : String)
  | boolF (key : String) (value : Bool)
  | bytesF (key : String) (value : List Nat)
  | durationF (key : String) (value : Int)
deriving DecidableEq

/-- The encoder effect of one field append (`Context.Int`,
`Context.String`, `Context.Bool`, `Recorder.Bytes`,
`Context.Duration`). -/
def appendFieldBuf (buf : Buf) : Field → Buf
  | .intF k v => encodeInt (encodeKey buf k) v
  | .strF k v => encodeString (encodeKey buf k) v
  | .boolF k v => encodeBool (encodeKey buf k) v
  | .bytesF k v => encodeBytes (encodeKey buf k) v
  | .durationF k v => encodeDuration (encodeKey buf k) v

/-- A chained field-append call on a possibly-nil context: on `nil` it
is a no-op returning `nil` (the `if ctx != nil` guard of every method);
otherwise it mutates the encoder and returns the context. -/
def contextField (ctx : Option Context) (f : Field) : Option Context :=
  match ctx with
  | none => none
  | some c => some { c with encoder := appendFieldBuf c.encoder f }

/-- A chain of field-append calls. -/
def contextFields : Option Context → List Field → Option Context
  | ctx, [] => ctx
  | ctx, f :: fs => contextFields (contextField ctx f) fs

/-- The encoder buffer after a chain of field appends. -/
def appendFieldsBuf : Buf → List Field → Buf
  | buf, [] => buf
  | buf, f :: fs => appendFieldsBuf (appendFieldBuf buf f) fs

/-- The record `Context.Print` (src/context.go) hands to
`provider.Print`: the record's level, the sub-logger name and the
finalized payload (`encoder.finish()` then the message). -/
structure PrintedRecord where
  level : Level
  pfx : String
  payload : Buf
deriving DecidableEq

/-- `Context.Print` (src/context.go): `nil` receiver returns without
writing; otherwise finalize the encoder, append the message and hand
the record to the provider. -/
def contextPrint (ctx : Option Context) (msg : String) :
    Option PrintedRecord :=
  match ctx with
  | none => none
  | some c => some ⟨c.level, c.pfx, finishEnc c.encoder ++ msg.data⟩

/-! ### Pools (src/context.go `putContext`, src/recorder.go
`putRecorder`, src/unnamed/part_000 `putEntry`) -/

/-- A context/recorder as the pool sees it: its encoder buffer
capacity (`encoder.Cap()`) decides retention. -/
structure PooledRecorder where
  level : Level
  pfx : String
  cap : Nat
deriving DecidableEq

/-- `putContext` (src/context.go): return the context to the pool only
when the encoder buffer capacity is below 1024. -/
def putContext (pool : List PooledRecorder) (ctx : PooledRecorder) :
    List PooledRecorder :=
  if ctx.cap < 1024 then ctx :: pool else pool

/-- `putRecorder` (src/recorder.go): same 1024 capacity gate. -/
def putRecorder (pool : List PooledRecorder) (r : PooledRecorder) :
    List PooledRecorder :=
  if r.cap < 1024 then r :: pool else pool

/-! ### The provider pipeline (src/unnamed/part_000) -/

/-- A pending output unit.  Modelled from the spec: the `entry` type is
not under src/ (only its users are); §3 gives its attributes: the byte
buffer, the severity, the header byte offset (the intrusive `next`
pointer becomes the containing list structure). -/
structure GoEntry where
  level : Level
  buf : Buf
  header : Nat
deriving DecidableEq

/-- `putEntry` (src/unnamed/part_000): drop entries whose buffer length
exceeds 256 bytes, push the rest onto the free-list head. -/
def putEntry (freeList : List GoEntry) (e : GoEntry) : List GoEntry :=
  if e.buf.length > 256 then freeList else e :: freeList

/-- Modelled from the spec: the work queue (`newQueue`, `push`,
`popAll`, `size`) is not under src/ (only its callers are); §4.3: push
appends to the tail under lock and returns the new size; `popAll`
detaches and returns the whole FIFO chain leaving the queue empty. -/
def queuePush (q : List GoEntry) (e : GoEntry) : List GoEntry × Nat :=
  (q ++ [e], q.length + 1)

/-- Modelled from the spec: `popAll` (see `queuePush`). -/
def queuePopAll (q : List GoEntry) : List GoEntry × List GoEntry :=
  (q, [])

/-- An observable action at the pipeline boundary: a sink write
(`writer.Write`), the sink close (`writer.Close`), process exit
(`os.Exit`). -/
inductive SinkEvent where
  | write (e : GoEntry)
  | close
  | exit (code : Nat)
deriving DecidableEq

/-- The provider (src/unnamed/part_000 `provider`), linearized: the
async flag (`queue != nil`), the atomic running flag, the pending
queue, the ordered trace of sink/process events, and the number of
consumer goroutines ever spawned by `Start`. -/
structure ProviderState where
  hasQueue : Bool
  running : Bool
  queue : List GoEntry
  events : List SinkEvent
  spawned : Nat
deriving DecidableEq

/-- `newProvider` (src/unnamed/part_000): inert, empty queue when
async. -/
def newProviderState (async : Bool) : ProviderState :=
  { hasQueue := async, running := false, queue := [], events := [],
    spawned := 0 }

/-- `provider.Start` (src/unnamed/part_000): error when no queue was
configured; compare-and-swap the running flag 0→1, failing when
already 1; on success spawn one consumer goroutine. -/
def startP (s : ProviderState) : ProviderState × Option String :=
  if s.hasQueue = false then (s, some "queue is nil")
  else if s.running then (s, some "provider already running")
  else ({ s with running := true, spawned := s.spawned + 1 }, none)

/-- `provider.writeEntries` (src/unnamed/part_000): write each drained
entry through the sink in order. -/
def writeEntries (s : ProviderState) (entries : List GoEntry) :
    ProviderState :=
  { s with events := s.events ++ entries.map SinkEvent.write }

/-- `provider.flushAll` (src/unnamed/part_000): `popAll` the queue under
the lock, then write every drained entry in order. -/
def flushAllP (s : ProviderState) : ProviderState :=
  let r := queuePopAll s.queue
  writeEntries { s with queue := r.2 } r.1

/-- `provider.Shutdown` (src/unnamed/part_000), linearized per the
code's ordering: no-op when no queue or when the running flag
compare-and-swap 1→0 fails; otherwise close `quit` and wake the
consumer, which drains every pending entry (`flushAll`) before
acknowledging; then close the sink. -/
def shutdownP (s : ProviderState) : ProviderState :=
  if s.hasQueue = false then s
  else if s.running = false then s
  else
    let s := flushAllP { s with running := false }
    { s with events := s.events ++ [SinkEvent.close] }

/-! ### Header formatting and `Print` (src/unnamed/part_000) -/

/-- Caller information (src/unnamed/part_000 `Caller`). -/
structure Caller where
  filename : String
  line : Int
deriving DecidableEq

/-- A wall-clock instant as `formatHeader` reads it (`time.Now()`
decomposed by `Date()`/`Clock()`/`Nanosecond()`; the `LUTC` timezone
choice happens before this decomposition and is outside the
embedding). -/
structure GoTime where
  year : Nat
  month : Nat
  day : Nat
  hour : Nat
  minute : Nat
  second : Nat
  nanosecond : Nat
deriving DecidableEq

/-- Modelled from the spec: the zero-padded fixed-width digit helpers
(`fourDigits`/`twoDigits`/`sixDigits` are not under src/, only their
callers); §4.4: "fixed-width numeric fields (zero-padded) ... each
numeric field is converted digit-by-digit". -/
def padDigits (width n : Nat) : Buf :=
  List.replicate (width - (toString n).data.length) '0' ++ (toString n).data

/-- Modelled from the spec: `someDigits` writes the plain decimal
digits of the caller's line number. -/
def someDigits (n : Nat) : Buf := (toString n).data

/-- The newline character. -/
def newline : Char := Char.ofNat 10

/-- `provider.formatHeader` (src/unnamed/part_000): `[`, the level
byte, optionally ` yyyy/mm/dd hh:mm:ss` and optionally `.uuuuuu`; then
either `] ` directly or ` file:line] ` when caller info is present. -/
def formatHeader (level : Level) (caller : Caller) (flags : Nat)
    (now : GoTime) : Buf :=
  let tmp : Buf := ['[', getLevelByte level]
  let tmp :=
    if flags &&& Ltimestamp ≠ 0 then
      tmp ++ [' '] ++ padDigits 4 now.year ++ ['/'] ++ padDigits 2 now.month
        ++ ['/'] ++ padDigits 2 now.day ++ [' '] ++ padDigits 2 now.hour
        ++ [':'] ++ padDigits 2 now.minute ++ [':'] ++ padDigits 2 now.second
        ++ (if flags &&& Lmicroseconds ≠ 0 then
              ['.'] ++ padDigits 6 (now.nanosecond / 1000)
            else [])
    else tmp
  if caller.line > 0 then
    tmp ++ [' '] ++ caller.filename.data ++ [':']
      ++ someDigits caller.line.toNat ++ [']', ' ']
  else
    tmp ++ [']', ' ']

/-- The final path segment (`strings.LastIndex(filename, "/")` then
`filename[slash+1:]`; unchanged when no slash occurs). -/
def shortFilename (s : String) : String :=
  String.mk ((s.data.reverse.takeWhile (fun c => c ≠ '/')).reverse)

/-- The caller fixup at the top of `provider.output`
(src/unnamed/part_000): with caller flags set, an invalid line becomes
`???:0`, and `Lshortfile` trims the filename to its last segment. -/
def fixCaller (flags : Nat) (caller : Caller) : Caller :=
  if flags &&& (Lshortfile ||| Llongfile) ≠ 0 then
    if caller.line ≤ 0 then { filename := "???", line := 0 }
    else if flags &&& Lshortfile ≠ 0 then
      { caller with filename := shortFilename caller.filename }
    else caller
  else caller

/-- The literal line opening the captured stack block
(src/unnamed/part_000 `output`). -/
def beginStackMarker : Buf := "========= BEGIN STACK TRACE =========\n".data

/-- The literal line closing the captured stack block
(src/unnamed/part_000 `output`). -/
def endStackMarker : Buf := "========== END STACK TRACE ==========\n".data

/-- The entry `provider.output` (src/unnamed/part_000) builds before
handing it to the queue or the sink: header (its length recorded as the
header offset), `(prefix) ` when non-empty, the message, `nil` when the
buffer is empty, a terminating newline when missing, and — for a
fatal-level record only — the captured call stack bracketed by the two
marker lines, appended here at the producer-side formatting stage.
`stack` stands for `runtime.Stack`'s capture of the caller's stack. -/
def formatEntry (level : Level) (flags : Nat) (caller : Caller)
    (pfx msg : String) (now : GoTime) (stack : Buf) : Option GoEntry :=
  let caller := fixCaller flags caller
  let hdr := formatHeader level caller flags now
  let buf := hdr
    ++ (if pfx.data.length > 0 then ['('] ++ pfx.data ++ [')', ' '] else [])
    ++ msg.data
  if buf.length = 0 then none
  else
    let buf := if buf.getLast? ≠ some newline then buf ++ [newline] else buf
    let buf :=
      if level = LevelFatal then
        buf ++ beginStackMarker ++ stack ++ endStackMarker
      else buf
    some { level := level, buf := buf, header := hdr.length }

/-- `provider.output` (src/unnamed/part_000): build the entry; when the
queue exists and the running flag is set, push it (signalling the
consumer when the queue was empty), otherwise write it synchronously
under the write lock. -/
def outputP (s : ProviderState) (level : Level) (flags : Nat)
    (caller : Caller) (pfx msg : String) (now : GoTime) (stack : Buf) :
    ProviderState :=
  match formatEntry level flags caller pfx msg now stack with
  | none => s
  | some e =>
      if s.hasQueue ∧ s.running then
        { s with queue := (queuePush s.queue e).1 }
      else
        { s with events := s.events ++ [SinkEvent.write e] }

/-- `provider.Print` (src/unnamed/part_000): `output`, then — only for
`LevelFatal` — `Shutdown()` followed by `os.Exit(1)`. -/
def printP (s : ProviderState) (level : Level) (flags : Nat)
    (caller : Caller) (pfx msg : String) (now : GoTime) (stack : Buf) :
    ProviderState :=
  let s := outputP s level flags caller pfx msg now stack
  if level = LevelFatal then
    let s := shutdownP s
    { s with events := s.events ++ [SinkEvent.exit 1] }
  else s

/-- A producer handing already-formatted entries to the async queue
(the queue-push arm of `provider.output`). -/
def pushEntries : ProviderState → List GoEntry → ProviderState
  | s, [] => s
  | s, e :: rest => pushEntries { s with queue := (queuePush s.queue e).1 } rest

/-! ### Spec-side renderings (stated from the specification's words,
for comparison with the source-derived encoders) -/

/-- A field as a key and its already-encoded value bytes (`encodeKey`
never inspects the value encoding). -/
abbrev KV := String × Buf

/-- Spec wording: the key written unquoted when it matches the
identifier grammar, JSON-string-quoted otherwise. -/
def renderKeySpec (k : String) : Buf :=
  if isIdent k then k.data else goQuote k

/-- Spec wording: one rendered field, `key:value`. -/
def fieldText (kv : KV) : Buf :=
  renderKeySpec kv.1 ++ [':'] ++ kv.2

/-- Spec wording for the whole record: with zero fields no braces at
all, just the message; otherwise an opening brace before the first
field's key, a comma before every subsequent key, and the closing
`} ` before the message. -/
def recordSpec (fields : List KV) (msg : String) : Buf :=
  match fields with
  | [] => msg.data
  | kv :: rest =>
      [lbrace] ++ fieldText kv
        ++ (rest.map (fun kv2 => [','] ++ fieldText kv2)).flatten
        ++ [rbrace, ' '] ++ msg.data

/-- A chain of field appends as the source performs it: `encodeKey`
then the value bytes, repeatedly. -/
def encodeKVs : Buf → List KV → Buf
  | buf, [] => buf
  | buf, kv :: rest => encodeKVs (encodeKey buf kv.1 ++ kv.2) rest

/-- The two lowercase hex digits of one byte (spec wording for the
byte-slice rendering). -/
def hexPair (c : Nat) : Buf :=
  [hexTable.getD (c / 16) '0', hexTable.getD (c % 16) '0']

/-- Spec wording for a non-byte slice: a bracketed comma-separated list
of the rendered elements. -/
def sliceSpec (render : α → Buf) (s : List α) : Buf :=
  match s with
  | [] => ['[', ']']
  | v :: rest =>
      ['['] ++ render v ++ (rest.map (fun w => [','] ++ render w)).flatten
        ++ [']']

/-! ## Theorems -/

/-! ### Key/field encoding (C5) -/

theorem isIdentRune_iff (c : Char) :
    isIdentRune c = true ↔
      (c.isAlpha = true ∨ c.isDigit = true ∨ c = '_' ∨ c = '-' ∨
        c = '.' ∨ c = '#' ∨ c = '$' ∨ c = '/') := by
  simp only [isIdentRune, Bool.or_eq_true, decide_eq_true_eq]
  tauto

theorem isIdent_iff (k : String) :
    isIdent k = true ↔
      (k.data ≠ [] ∧ ∀ c ∈ k.data,
        c.isAlpha = true ∨ c.isDigit = true ∨ c = '_' ∨ c = '-' ∨
          c = '.' ∨ c = '#' ∨ c = '$' ∨ c = '/') := by
  unfold isIdent
  split
  · rename_i h
    rw [List.length_eq_zero] at h
    simp [h]
  · rename_i h
    rw [List.length_eq_zero] at h
    simp [h, List.all_eq_true, isIdentRune_iff]

theorem encodeKey_nil_buf (k : String) :
    encodeKey [] k = [lbrace] ++ renderKeySpec k ++ [':'] := by
  unfold encodeKey renderKeySpec encodeString
  split_ifs <;> simp_all

theorem encodeKey_cons_buf (buf : Buf) (k : String) (h : buf ≠ []) :
    encodeKey buf k = buf ++ [','] ++ renderKeySpec k ++ [':'] := by
  unfold encodeKey renderKeySpec encodeString
  rw [if_neg h]
  split_ifs <;> simp_all

theorem encodeKVs_go (fields : List KV) :
    ∀ buf : Buf, buf ≠ [] →
      encodeKVs buf fields
        = buf ++ (fields.map (fun kv => [','] ++ fieldText kv)).flatten := by
  induction fields with
  | nil => intro buf _; simp [encodeKVs]
  | cons kv rest ih =>
      intro buf h
      rw [encodeKVs, encodeKey_cons_buf buf kv.1 h,
        ih _ (by simp [List.append_eq_nil])]
      simp [fieldText, List.append_assoc]

/-- **C5.** For every sequence of field appends followed by the terminal
print: `encodeKey` writes an opening brace before the first field's key
and a comma before every subsequent key; a key is written unquoted iff
it is non-empty and every rune is a letter, digit, or one of
`_ - . # $ /`, and is JSON-string-quoted otherwise; at finalization the
closing `} ` is appended iff at least one field was written, and with
zero fields no braces appear at all — the output is just the message
(concretely: `$name` stays unquoted, `name of` is quoted). -/
theorem claim5_key_encoding (fields : List KV) (msg : String) :
    finishEnc (encodeKVs [] fields) ++ msg.data = recordSpec fields msg
    ∧ (∀ k : String, isIdent k = true ↔
        (k.data ≠ [] ∧ ∀ c ∈ k.data,
          c.isAlpha = true ∨ c.isDigit = true ∨ c = '_' ∨ c = '-' ∨
            c = '.' ∨ c = '#' ∨ c = '$' ∨ c = '/'))
    ∧ encodeKey [] "$name" = [lbrace] ++ "$name:".data
    ∧ encodeKey [] "name of"
        = [lbrace, dquote] ++ "name of".data ++ [dquote, ':'] := by
  refine ⟨?_, isIdent_iff, by decide, by decide⟩
  cases fields with
  | nil => simp [encodeKVs, finishEnc, recordSpec]
  | cons kv rest =>
      rw [recordSpec, encodeKVs, encodeKey_nil_buf,
        encodeKVs_go rest _ (by simp [List.append_eq_nil]), finishEnc,
        if_pos (by simp)]
      simp [fieldText, List.append_assoc]

/-! ### Slice encoding (C8) -/

theorem encodeElemsLoop_append (enc : Buf → α → Buf)
    (henc : ∀ buf a, enc buf a = buf ++ enc [] a) :
    ∀ (s : List α) (buf : Buf),
      encodeElemsLoop enc buf false s
        = buf ++ (s.map (fun w => [','] ++ enc [] w)).flatten := by
  intro s
  induction s with
  | nil => intro buf; simp [encodeElemsLoop]
  | cons v rest ih =>
      intro buf
      rw [encodeElemsLoop, if_neg (by simp), henc, ih]
      simp [List.append_assoc]

theorem encodeSlice_spec (enc : Buf → α → Buf)
    (henc : ∀ buf a, enc buf a = buf ++ enc [] a) (s : List α) (buf : Buf) :
    encodeSlice enc buf s = buf ++ sliceSpec (fun a => enc [] a) s := by
  cases s with
  | nil => simp [encodeSlice, encodeElemsLoop, sliceSpec]
  | cons v rest =>
      rw [encodeSlice, encodeElemsLoop, if_pos rfl, henc,
        encodeElemsLoop_append enc henc, sliceSpec]
      simp [List.append_assoc]

theorem encodeBytesLoop_spec :
    ∀ (s : List Nat) (buf : Buf),
      s.foldl
        (fun b c =>
          b ++ [hexTable.getD (c / 16) '0', hexTable.getD (c % 16) '0'])
        buf
        = buf ++ (s.map hexPair).flatten := by
  intro s
  induction s with
  | nil => intro buf; simp
  | cons c rest ih =>
      intro buf
      rw [List.foldl_cons, ih]
      simp [hexPair, List.append_assoc]

/-- **C8.** Every modelled homogeneous slice field renders as a
bracketed comma-separated list of its elements, each encoded by the
element type's scalar rule — except byte slices, which render as a
single `0x`-prefixed lowercase-hex run with no separators and no
brackets; the bytes `[0x31, 0x33, 0x78]` under key `bytes` yield
`bytes:0x313378`. -/
theorem claim8_slice_encoding (s8 : List Nat) (si : List Int)
    (su : List Nat) (sb : List Bool) (ss : List String) (buf : Buf) :
    encodeBytes buf s8 = buf ++ "0x".data ++ (s8.map hexPair).flatten
    ∧ encodeInt32s buf si = buf ++ sliceSpec (fun v => encodeInt [] v) si
    ∧ encodeUint64s buf su = buf ++ sliceSpec (fun v => encodeUint [] v) su
    ∧ encodeBools buf sb = buf ++ sliceSpec (fun v => encodeBool [] v) sb
    ∧ encodeStrings buf ss
        = buf ++ sliceSpec (fun v => encodeString [] v) ss
    ∧ finishEnc (encodeBytes (encodeKey [] "bytes") [49, 51, 120])
          ++ "recorder".data
        = [lbrace] ++ "bytes:0x313378".data ++ [rbrace, ' ']
          ++ "recorder".data := by
  refine ⟨?_, ?_, ?_, ?_, ?_, by decide⟩
  · rw [encodeBytes, encodeBytesLoop_spec]
  · exact encodeSlice_spec encodeInt (fun b a => by simp [encodeInt]) si buf
  · exact encodeSlice_spec encodeUint (fun b a => by simp [encodeUint]) su buf
  · exact encodeSlice_spec encodeBool (fun b a => by simp [encodeBool]) sb buf
  · exact encodeSlice_spec encodeString
      (fun b a => by simp [encodeString]) ss buf

/-! ### Level gating and nil-safe chaining (C1) -/

theorem contextFields_none (fs : List Field) :
    contextFields none fs = none := by
  induction fs with
  | nil => rfl
  | cons f rest ih => rw [contextFields, contextField]; exact ih

theorem contextFields_some (fs : List Field) :
    ∀ c : Context,
      contextFields (some c) fs
        = some { c with encoder := appendFieldsBuf c.encoder fs } := by
  induction fs with
  | nil => intro c; rfl
  | cons f rest ih =>
      intro c
      rw [contextFields, contextField, ih, appendFieldsBuf]

/-- **C1.** For every logger threshold `L` and record level `R`:
`getContext` returns a non-nil context, and the chained fields and
message are encoded and handed to the provider, iff `R ≤ L` in the
fatal=1..trace=6 ordering; otherwise `getContext` returns nil and every
chained field append on the nil context is a no-op returning nil, and
the terminal print on the nil context writes nothing. -/
theorem claim1_level_gating (L R : Level) (pfx : String)
    (fs : List Field) (msg : String) :
    (contextPrint (contextFields (getContext L R pfx) fs) msg
      = if R ≤ L then
          some ⟨R, pfx, finishEnc (appendFieldsBuf [] fs) ++ msg.data⟩
        else none)
    ∧ (getContext L R pfx = none ↔ ¬R ≤ L)
    ∧ contextFields none fs = none
    ∧ contextPrint (none : Option Context) msg = none := by
  refine ⟨?_, ?_, contextFields_none fs, rfl⟩
  · unfold getContext
    by_cases h : L < R
    · rw [if_pos h, contextFields_none, if_neg (not_le.mpr h)]
      rfl
    · rw [if_neg h, contextFields_some, if_pos (le_of_not_lt h)]
      rfl
  · unfold getContext
    by_cases h : L < R
    · rw [if_pos h]
      simp [not_le.mpr h]
    · rw [if_neg h]
      simp [le_of_not_lt h]

/-! ### Complex rendering (C7) -/

/-- **C7.** `encodeComplex`, for any operand type and float formatter:
a zero imaginary part renders as the real part only — no trailing `i`
and no `+` (just `0` when the real part is zero too); a pure-imaginary
value renders as the imaginary part followed by `i` with no leading
real term; nonzero parts render as `real`, `+`, `imaginary`, `i`. -/
theorem claim7_complex_zero {F : Type} [DecidableEq F] (z : F)
    (fmtF : F → Buf) (r i : F) :
    (i = z → encodeComplex z fmtF [] r i
      = if r = z then ['0'] else fmtF r)
    ∧ (r = z → i ≠ z → encodeComplex z fmtF [] r i = fmtF i ++ ['i'])
    ∧ encodeComplex z fmtF [] z z = ['0']
    ∧ (r ≠ z → i ≠ z →
        encodeComplex z fmtF [] r i = fmtF r ++ ['+'] ++ fmtF i ++ ['i']) := by
  refine ⟨?_, ?_, ?_, ?_⟩
  · intro hi
    unfold encodeComplex
    by_cases hr : r = z <;> simp [hr, hi]
  · intro hr hi
    unfold encodeComplex
    simp [hr, hi]
  · unfold encodeComplex
    simp
  · intro hr hi
    unfold encodeComplex
    simp [hr, hi]

/-- Witness for C7 at a concrete instance (`F := Int`, decimal
formatter): `0+2i` renders as `2i`, `0+0i` as `0`, `3+0i` as `3`,
`3+2i` as `3+2i`. -/
theorem claim7_complex_zero_witness :
    encodeComplex (0 : Int) (fun v => (toString v).data) [] 0 2
        = "2i".data
    ∧ encodeComplex (0 : Int) (fun v => (toString v).data) [] 0 0
        = "0".data
    ∧ encodeComplex (0 : Int) (fun v => (toString v).data) [] 3 0
        = "3".data
    ∧ encodeComplex (0 : Int) (fun v => (toString v).data) [] 3 2
        = "3+2i".data := by
  refine ⟨?_, ?_, ?_, ?_⟩
  · rw [(claim7_complex_zero (0 : Int) (fun v => (toString v).data)
      0 2).2.1 rfl (by decide)]
    decide
  · exact (claim7_complex_zero (0 : Int)
      (fun v => (toString v).data) 0 0).2.2.1
  · rw [(claim7_complex_zero (0 : Int) (fun v => (toString v).data)
      3 0).1 rfl]
    decide
  · rw [(claim7_complex_zero (0 : Int) (fun v => (toString v).data)
      3 2).2.2.2 (by decide) (by decide)]
    decide

/-! ### Level parsing and `Set` (C9) -/

/-- **C9.** For every input that does not parse as a level,
`ParseLevel` returns `(LevelInfo, false)` and `Set` both overwrites the
receiver with `LevelInfo` and returns `errUnrecognizedLevel`; for every
recognized input — a level name case-insensitively, its single-letter
tag, or its numeric literal — `Set` stores the parsed level and returns
no error.  The receiver's new value never depends on its old value. -/
theorem claim9_parse_set (s : String) (v : Level) :
    (levelSet v s).1 = (parseLevel s).1
    ∧ ((parseLevel s).2 = false →
        parseLevel s = (LevelInfo, false)
        ∧ (levelSet v s).2 = some errUnrecognizedLevel)
    ∧ ((parseLevel s).2 = true → (levelSet v s).2 = none)
    ∧ ((parseLevel s).2 = recognizedLevelInput s) := by
  refine ⟨rfl, ?_, ?_, ?_⟩
  · intro h
    unfold parseLevel at h
    unfold levelSet parseLevel
    split_ifs at h ⊢ <;> simp_all
  · intro h
    unfold levelSet
    simp [h]
  · have e1 : levelLiteral LevelFatal = "1" := rfl
    have e2 : levelLiteral LevelError = "2" := rfl
    have e3 : levelLiteral LevelWarn = "3" := rfl
    have e4 : levelLiteral LevelInfo = "4" := rfl
    have e5 : levelLiteral LevelDebug = "5" := rfl
    have e6 : levelLiteral LevelTrace = "6" := rfl
    unfold parseLevel recognizedLevelInput
    rw [e1, e2, e3, e4, e5, e6]
    split_ifs with h1 h2 h3 h4 h5 h6 <;>
      simp_all [List.mem_cons] <;> tauto

/-- Witness for C9: the unrecognized input `bogus` (receiver previously
`LevelTrace`) is overwritten with `LevelInfo` and reported as an error;
the recognized inputs behave as stated. -/
theorem claim9_parse_set_witness :
    (levelSet LevelTrace "bogus").1 = (parseLevel "bogus").1
    ∧ (parseLevel "bogus" = (LevelInfo, false)
        ∧ (levelSet LevelTrace "bogus").2 = some errUnrecognizedLevel)
    ∧ (parseLevel "bogus").2 = recognizedLevelInput "bogus" := by
  refine ⟨(claim9_parse_set "bogus" LevelTrace).1,
    (claim9_parse_set "bogus" LevelTrace).2.1 (by decide),
    (claim9_parse_set "bogus" LevelTrace).2.2.2⟩

/-! ### Pool retention thresholds (C10) -/

/-- **C10.** After the terminal print releases it, a context (and
equally a recorder) is returned to its pool iff its encoder buffer
capacity is strictly below 1024 bytes; larger ones are discarded.  The
entry pool's distinct rule retains an entry iff its buffer length is at
most 256 bytes. -/
theorem claim10_pool_threshold (pool : List PooledRecorder)
    (ctx : PooledRecorder) (fl : List GoEntry) (e : GoEntry) :
    (putContext pool ctx = ctx :: pool ↔ ctx.cap < 1024)
    ∧ (¬ctx.cap < 1024 → putContext pool ctx = pool)
    ∧ (putRecorder pool ctx = ctx :: pool ↔ ctx.cap < 1024)
    ∧ (¬ctx.cap < 1024 → putRecorder pool ctx = pool)
    ∧ (putEntry fl e = e :: fl ↔ e.buf.length ≤ 256)
    ∧ (e.buf.length > 256 → putEntry fl e = fl) := by
  refine ⟨?_, ?_, ?_, ?_, ?_, ?_⟩
  · unfold putContext
    split_ifs with h <;> simp [h]
  · intro h; unfold putContext; rw [if_neg h]
  · unfold putRecorder
    split_ifs with h <;> simp [h]
  · intro h; unfold putRecorder; rw [if_neg h]
  · unfold putEntry
    split_ifs with h <;> simp <;> omega
  · intro h; unfold putEntry; rw [if_pos h]

/-- Witness for C10: a context of capacity 1024 is discarded, one of
capacity 1023 is retained; an entry of length 257 is dropped. -/
theorem claim10_pool_threshold_witness :
    putContext [] { level := LevelInfo, pfx := "", cap := 1024 } = []
    ∧ (putContext [] { level := LevelInfo, pfx := "", cap := 1023 }
        = [{ level := LevelInfo, pfx := "", cap := 1023 }])
    ∧ putEntry []
        { level := LevelInfo, buf := List.replicate 257 'a', header := 0 }
        = [] := by
  refine ⟨(claim10_pool_threshold []
      { level := LevelInfo, pfx := "", cap := 1024 } []
      { level := LevelInfo, buf := [], header := 0 }).2.1 (by decide),
    ((claim10_pool_threshold []
      { level := LevelInfo, pfx := "", cap := 1023 } []
      { level := LevelInfo, buf := [], header := 0 }).1).2 (by decide),
    (claim10_pool_threshold []
      { level := LevelInfo, pfx := "", cap := 0 } []
      { level := LevelInfo, buf := List.replicate 257 'a',
        header := 0 }).2.2.2.2.2
      (by show (List.replicate 257 'a').length > 256
          rw [List.length_replicate]
          omega)⟩

/-! ### Shutdown drains before close (C2) -/

theorem pushEntries_eq (es : List GoEntry) :
    ∀ s : ProviderState, pushEntries s es = { s with queue := s.queue ++ es } := by
  induction es with
  | nil => intro s; simp [pushEntries]
  | cons e rest ih =>
      intro s
      rw [pushEntries, ih]
      simp [queuePush]

theorem shutdownP_drains (s : ProviderState) (hq : s.hasQueue = true)
    (hr : s.running = true) :
    shutdownP s
      = { s with
          running := false
          queue := []
          events := s.events ++ s.queue.map SinkEvent.write
            ++ [SinkEvent.close] } := by
  unfold shutdownP flushAllP writeEntries queuePopAll
  rw [if_neg (by simp [hq]), if_neg (by simp [hr])]

/-- **C2.** For every sequence of entries pushed to the async queue of
a running provider followed by `Shutdown`: every pushed entry (after
any already pending) is written through the sink, in push order, before
the sink's `Close` is invoked, and the queue is left empty — no pending
entry is dropped on shutdown. -/
theorem claim2_shutdown_no_loss (s : ProviderState) (es : List GoEntry)
    (hq : s.hasQueue = true) (hr : s.running = true) :
    shutdownP (pushEntries s es)
      = { s with
          running := false
          queue := []
          events := s.events ++ (s.queue ++ es).map SinkEvent.write
            ++ [SinkEvent.close] } := by
  have h2 := shutdownP_drains { s with queue := s.queue ++ es }
    (by simp [hq]) (by simp [hr])
  rw [pushEntries_eq, h2]

/-- Witness for C2: two entries pushed to a freshly started provider
are both written, in order, then the sink is closed. -/
theorem claim2_shutdown_no_loss_witness :
    shutdownP (pushEntries (startP (newProviderState true)).1
        [⟨LevelInfo, ['a'], 0⟩, ⟨LevelInfo, ['b'], 0⟩])
      = { hasQueue := true, running := false, queue := [],
          events := [SinkEvent.write ⟨LevelInfo, ['a'], 0⟩,
            SinkEvent.write ⟨LevelInfo, ['b'], 0⟩, SinkEvent.close],
          spawned := 1 } := by
  rw [claim2_shutdown_no_loss (startP (newProviderState true)).1
    [⟨LevelInfo, ['a'], 0⟩, ⟨LevelInfo, ['b'], 0⟩] (by decide) (by decide)]
  decide

/-! ### Fatal path (C3) -/

theorem formatHeader_ne_nil (level : Level) (caller : Caller)
    (flags : Nat) (now : GoTime) :
    formatHeader level caller flags now ≠ [] := by
  unfold formatHeader
  split_ifs <;> simp

theorem formatEntry_fatal (flags : Nat) (caller : Caller)
    (pfx msg : String) (now : GoTime) (stack : Buf) :
    ∃ body : Buf,
      formatEntry LevelFatal flags caller pfx msg now stack
        = some ⟨LevelFatal,
            body ++ beginStackMarker ++ stack ++ endStackMarker,
            (formatHeader LevelFatal (fixCaller flags caller) flags
              now).length⟩ := by
  have hne := formatHeader_ne_nil LevelFatal (fixCaller flags caller)
    flags now
  simp only [formatEntry]
  split_ifs <;> first | exact ⟨_, rfl⟩ | simp_all

theorem printP_fatal (s : ProviderState) (flags : Nat) (caller : Caller)
    (pfx msg : String) (now : GoTime) (stack : Buf) (e : GoEntry)
    (hq : s.hasQueue = true) (hr : s.running = true)
    (hfe : formatEntry LevelFatal flags caller pfx msg now stack = some e) :
    printP s LevelFatal flags caller pfx msg now stack
      = { s with
          running := false
          queue := []
          events := s.events ++ (s.queue ++ [e]).map SinkEvent.write
            ++ [SinkEvent.close, SinkEvent.exit 1] } := by
  have ho : outputP s LevelFatal flags caller pfx msg now stack
      = { s with queue := (queuePush s.queue e).1 } := by
    simp only [outputP, hfe]
    rw [if_pos (And.intro hq hr)]
  have hs := shutdownP_drains { s with queue := (queuePush s.queue e).1 }
    (by simp [hq]) (by simp [hr])
  simp only [printP, ho, hs]
  simp [queuePush, List.append_assoc]

/-- **C3.** A fatal-level `Print` on a running async provider: the
formatted entry exists and carries — appended at the producer-side
formatting stage, before the entry reaches the queue — exactly the
captured stack block bracketed by the literal marker lines; the
provider then shuts down (draining the queue, writing the fatal entry
and closing the sink) and only then exits the process with status 1;
and for every non-fatal level the same call emits no sink close and no
process exit (its entry only joins the queue). -/
theorem claim3_fatal_path (s : ProviderState) (flags : Nat)
    (caller : Caller) (pfx msg : String) (now : GoTime) (stack : Buf)
    (hq : s.hasQueue = true) (hr : s.running = true) :
    ∃ e : GoEntry,
      formatEntry LevelFatal flags caller pfx msg now stack = some e
      ∧ (∃ body : Buf,
          e.buf = body ++ beginStackMarker ++ stack ++ endStackMarker)
      ∧ printP s LevelFatal flags caller pfx msg now stack
          = { s with
              running := false
              queue := []
              events := s.events ++ (s.queue ++ [e]).map SinkEvent.write
                ++ [SinkEvent.close, SinkEvent.exit 1] }
      ∧ (∀ lvl : Level, lvl ≠ LevelFatal →
          (printP s lvl flags caller pfx msg now stack).events
            = s.events) := by
  obtain ⟨body, hfe⟩ := formatEntry_fatal flags caller pfx msg now stack
  refine ⟨_, hfe, ⟨body, rfl⟩,
    printP_fatal s flags caller pfx msg now stack _ hq hr hfe, ?_⟩
  intro lvl hlvl
  simp only [printP, outputP]
  rw [if_neg hlvl]
  cases hfe2 : formatEntry lvl flags caller pfx msg now stack with
  | none => rfl
  | some e2 =>
      dsimp only
      rw [if_pos (And.intro hq hr)]

/-- Witness for C3 at a freshly started async provider: a fatal print
of `boom` writes the entry, closes the sink and exits, in that order. -/
theorem claim3_fatal_path_witness :
    ∃ e : GoEntry,
      formatEntry LevelFatal 0 ⟨"", 0⟩ "" "boom" ⟨0, 0, 0, 0, 0, 0, 0⟩
          "STACK\n".data = some e
      ∧ (∃ body : Buf,
          e.buf = body ++ beginStackMarker ++ "STACK\n".data
            ++ endStackMarker)
      ∧ printP (startP (newProviderState true)).1 LevelFatal 0 ⟨"", 0⟩
            "" "boom" ⟨0, 0, 0, 0, 0, 0, 0⟩ "STACK\n".data
          = { (startP (newProviderState true)).1 with
              running := false
              queue := []
              events := (startP (newProviderState true)).1.events
                ++ ((startP (newProviderState true)).1.queue ++ [e]).map
                  SinkEvent.write
                ++ [SinkEvent.close, SinkEvent.exit 1] }
      ∧ (∀ lvl : Level, lvl ≠ LevelFatal →
          (printP (startP (newProviderState true)).1 lvl 0 ⟨"", 0⟩ ""
              "boom" ⟨0, 0, 0, 0, 0, 0, 0⟩ "STACK\n".data).events
            = (startP (newProviderState true)).1.events) :=
  claim3_fatal_path (startP (newProviderState true)).1 0 ⟨"", 0⟩ ""
    "boom" ⟨0, 0, 0, 0, 0, 0, 0⟩ "STACK\n".data (by decide) (by decide)

/-! ### Lifecycle state machine (C4) -/

/-- **C4 counterexample.** The claim's "Stopped is terminal, Start
spawns at most one background consumer ever" fails on the code: after
`Start` then `Shutdown`, the running flag is 0 again, so a second
`Start` succeeds (returns no error) and spawns a second consumer
goroutine — two consumers ever, refuting "at most one ever". -/
theorem claim4_not_terminal_counterexample :
    (startP (newProviderState true)).2 = none
    ∧ (startP (shutdownP (startP (newProviderState true)).1)).2 = none
    ∧ ¬(startP (shutdownP (startP (newProviderState true)).1)).1.spawned
        ≤ 1 := by
  refine ⟨rfl, rfl, ?_⟩
  decide

/-- **C4 (amended).** The lifecycle that does hold: a second `Start` in
a row fails and changes nothing (the compare-and-swap guarantees at
most one consumer per running period); `Shutdown` twice has the effect
of one `Shutdown`; `Shutdown` before any `Start` (running flag still 0)
or on a synchronous-only provider (no queue) is a safe no-op; a
successful `Start` happens iff a queue exists and the flag was 0, and
spawns exactly one new consumer; a failed `Start` changes nothing.
Stopped is terminal only as a usage contract: `Shutdown` resets the
flag, so a later `Start` succeeds again (see the counterexample). -/
theorem claim4_lifecycle (s : ProviderState) :
    (startP (startP s).1).2.isSome = true
    ∧ (startP (startP s).1).1 = (startP s).1
    ∧ shutdownP (shutdownP s) = shutdownP s
    ∧ (s.running = false → shutdownP s = s)
    ∧ (s.hasQueue = false → shutdownP s = s)
    ∧ ((startP s).2 = none ↔ s.hasQueue = true ∧ s.running = false)
    ∧ ((startP s).2 = none →
        (startP s).1.spawned = s.spawned + 1
        ∧ (startP s).1.running = true)
    ∧ ((startP s).2.isSome = true → (startP s).1 = s) := by
  refine ⟨?_, ?_, ?_, ?_, ?_, ?_, ?_, ?_⟩
  · unfold startP
    split_ifs with h1 h2 <;> simp_all
  · unfold startP
    split_ifs with h1 h2 <;> simp_all
  · unfold shutdownP flushAllP writeEntries queuePopAll
    split_ifs <;> simp_all
  · intro h
    unfold shutdownP
    split_ifs <;> simp_all
  · intro h
    unfold shutdownP
    rw [if_pos h]
  · unfold startP
    split_ifs <;> simp_all
  · intro h
    unfold startP at h ⊢
    split_ifs at h ⊢ <;> simp_all
  · intro h
    unfold startP at h ⊢
    split_ifs at h ⊢ <;> simp_all

/-- Witness for C4 (amended) at a fresh async provider: the concrete
lifecycle facts hold there. -/
theorem claim4_lifecycle_witness :
    (startP (startP (newProviderState true)).1).2.isSome = true
    ∧ (startP (startP (newProviderState true)).1).1
        = (startP (newProviderState true)).1
    ∧ shutdownP (shutdownP (newProviderState true))
        = shutdownP (newProviderState true)
    ∧ shutdownP (newProviderState true) = newProviderState true
    ∧ shutdownP (newProviderState false) = newProviderState false :=
  ⟨(claim4_lifecycle (newProviderState true)).1,
    (claim4_lifecycle (newProviderState true)).2.1,
    (claim4_lifecycle (newProviderState true)).2.2.1,
    (claim4_lifecycle (newProviderState true)).2.2.2.1 (by decide),
    (claim4_lifecycle (newProviderState false)).2.2.2.2.1 (by decide)⟩

/-! ### Duration rendering (C6) -/

theorem fmtIntGo_zero_val (fuel : Nat) (acc : Buf) :
    fmtIntGo fuel 0 acc = acc := by
  cases fuel <;> simp [fmtIntGo]

theorem fmtIntGo_head (fuel : Nat) :
    ∀ (v : Nat) (acc : Buf), v ≠ 0 → v ≤ fuel →
      ∃ c rest, fmtIntGo fuel v acc = c :: rest ∧ c ≠ '0'
        ∧ acc.length ≤ rest.length := by
  induction fuel with
  | zero => intro v acc hv hle; omega
  | succ fuel ih =>
      intro v acc hv hle
      simp only [fmtIntGo, if_neg hv]
      by_cases h10 : v / 10 = 0
      · rw [h10, fmtIntGo_zero_val]
        have hlt : v < 10 := by omega
        have hm : v % 10 = v := Nat.mod_eq_of_lt hlt
        refine ⟨_, _, rfl, ?_, by simp⟩
        rw [hm]
        interval_cases v <;> simp_all
      · obtain ⟨c, rest, hgo, hc, hlen⟩ :=
          ih (v / 10) (Char.ofNat (v % 10 + 48) :: acc) h10 (by omega)
        refine ⟨c, rest, hgo, hc, ?_⟩
        simp at hlen
        omega

theorem fmtInt_length (acc : Buf) (v : Nat) :
    acc.length + 1 ≤ (fmtInt acc v).length := by
  unfold fmtInt fmtIntLoop
  split_ifs with h
  · simp
  · obtain ⟨c, rest, hgo, _, hlen⟩ := fmtIntGo_head v v acc h le_rfl
    rw [hgo]
    simp
    omega

theorem fmtInt_length_pos (acc : Buf) (v : Nat) :
    1 ≤ (fmtInt acc v).length := by
  have := fmtInt_length acc v
  omega

theorem fmtInt_head_ne_zero (acc : Buf) (v : Nat) (hv : v ≠ 0) :
    ∃ c rest, fmtInt acc v = c :: rest ∧ c ≠ '0' := by
  unfold fmtInt fmtIntLoop
  rw [if_neg hv]
  obtain ⟨c, rest, hgo, hc, _⟩ := fmtIntGo_head v v acc hv le_rfl
  exact ⟨c, rest, hgo, hc⟩

theorem fmtFracLoop_length (p : Nat) :
    ∀ (v : Nat) (pr : Bool) (acc : Buf),
      acc.length ≤ (fmtFracLoop p v pr acc).1.length := by
  induction p with
  | zero => intro v pr acc; simp [fmtFracLoop]
  | succ p ih =>
      intro v pr acc
      simp only [fmtFracLoop]
      refine le_trans ?_ (ih (v / 10) _ _)
      split_ifs <;> simp

theorem fmtFracLoop_val (p : Nat) :
    ∀ (v : Nat) (pr : Bool) (acc : Buf),
      (fmtFracLoop p v pr acc).2.1 = v / 10 ^ p := by
  induction p with
  | zero => intro v pr acc; simp [fmtFracLoop]
  | succ p ih =>
      intro v pr acc
      simp only [fmtFracLoop]
      rw [ih, Nat.div_div_eq_div_mul]
      congr 1
      rw [pow_succ]
      ring

theorem fmtFrac_length (acc : Buf) (v prec : Nat) :
    acc.length ≤ (fmtFrac acc v prec).1.length := by
  have h := fmtFracLoop_length prec v false acc
  simp only [fmtFrac]
  split_ifs <;> simp <;> omega

theorem fmtFrac_val (acc : Buf) (v prec : Nat) :
    (fmtFrac acc v prec).2 = v / 10 ^ prec := by
  simp only [fmtFrac]
  exact fmtFracLoop_val prec v false acc

theorem ne_zs_of_length_three (l : Buf) (h : 3 ≤ l.length) :
    l ≠ ['0', 's'] := by
  intro he
  rw [he] at h
  simp at h

theorem subsecond_ne_zs (unitBuf : Buf) (h2 : unitBuf.length = 2)
    (u prec : Nat) :
    fmtInt (fmtFrac unitBuf u prec).1 (fmtFrac unitBuf u prec).2
      ≠ ['0', 's'] := by
  apply ne_zs_of_length_three
  have h1 := fmtFrac_length unitBuf u prec
  have h3 := fmtInt_length (fmtFrac unitBuf u prec).1
    (fmtFrac unitBuf u prec).2
  omega

theorem fmtInt_cons_ne_zs (c : Char) (x : Buf) (v : Nat)
    (hx : 1 ≤ x.length) :
    fmtInt (c :: x) v ≠ ['0', 's'] := by
  apply ne_zs_of_length_three
  have := fmtInt_length (c :: x) v
  simp at this
  omega

theorem fmtInt_ne_zs_of_pos (acc : Buf) (v : Nat) (hv : v ≠ 0) :
    fmtInt acc v ≠ ['0', 's'] := by
  obtain ⟨c, rest, heq, hc⟩ := fmtInt_head_ne_zero acc v hv
  rw [heq]
  simp [hc]

theorem formatDuration_ne_zs (d : Int) (hd : d ≠ 0) :
    formatDuration d ≠ ['0', 's'] := by
  have hu : d.natAbs ≠ 0 := fun h0 => hd (Int.natAbs_eq_zero.mp h0)
  simp only [formatDuration]
  split_ifs <;>
    first
      | exact subsecond_ne_zs _ (by simp) _ _
      | exact fmtInt_cons_ne_zs _ _ _ (fmtInt_length_pos _ _)
      | exact fmtInt_ne_zs_of_pos _ _
          (by simp only [fmtFrac_val] at *
              simp only [nsPerSecond] at *
              norm_num at *
              omega)
      | simp_all

/-- **C6.** `formatDuration` renders the Go-style duration grammar.
Exactly zero renders as `0s` — and as `0s` only (the ∀-conjunct); in
particular 1200 milliseconds renders as `1.2s`.  One instance per
grammar branch: `1h2m3s` (hours/minutes/seconds), `1m30.5s`
(sub-second remainder as a trimmed decimal fraction of the seconds
field), and single smaller units `1.5ms`, `1.5µs`, `500ns` for
durations below one second; a negative duration gets a `-` sign. -/
theorem claim6_duration_format :
    formatDuration 0 = "0s".data
    ∧ (∀ d : Int, formatDuration d = "0s".data ↔ d = 0)
    ∧ formatDuration (1200 * 1000000) = "1.2s".data
    ∧ formatDuration 3723000000000 = "1h2m3s".data
    ∧ formatDuration 90500000000 = "1m30.5s".data
    ∧ formatDuration 1500000 = "1.5ms".data
    ∧ formatDuration 1500 = "1.5µs".data
    ∧ formatDuration 500 = "500ns".data
    ∧ formatDuration (-90500000000) = "-1m30.5s".data := by
  refine ⟨by decide, ?_, by decide, by decide, by decide, by decide,
    by decide, by decide, by decide⟩
  intro d
  constructor
  · intro h
    by_contra hd
    exact formatDuration_ne_zs d hd h
  · intro h
    subst h
    decide

end GopherdLog
